import Mathlib

/-
Verification of convert_requirements.py: a requirements.txt to
pyproject.toml converter.  The development shallowly embeds the three
components of the script: the recursive include resolver
(`parse_requirements`), the requirement line regex parser
(`parse_requirement_line`), and the manifest template generator
(`generate_pyproject_toml`), together with the ordered-dictionary
accumulation performed by `main`.
-/

namespace ConvertReq

/-! ## Models of the Python string methods used by the script -/

/-- Model of Python `str.strip()` on the character list level:
drop whitespace from both ends. -/
def trimChars (cs : List Char) : List Char :=
  ((cs.dropWhile Char.isWhitespace).reverse.dropWhile Char.isWhitespace).reverse

/-- Model of Python `str.strip()`. -/
def strTrim (s : String) : String :=
  String.mk (trimChars s.data)

/-- Model of Python `str.startswith(pat)`. -/
def strStartsWith (s pat : String) : Bool :=
  pat.data.isPrefixOf s.data

/-- Auxiliary for `pySplit`: scans the characters, accumulating the
current word reversed in `acc`. -/
def pySplitAux : List Char → List Char → List (List Char)
  | [], acc => if acc.isEmpty then [] else [acc.reverse]
  | c :: cs, acc =>
    if c.isWhitespace then
      if acc.isEmpty then pySplitAux cs [] else acc.reverse :: pySplitAux cs []
    else
      pySplitAux cs (c :: acc)

/-- Model of Python `str.split()` with no argument: split on runs of
whitespace, discarding empty pieces. -/
def pySplit (s : String) : List String :=
  (pySplitAux s.data []).map String.mk

/-! ## Line Parser (`parse_requirement_line`)

The script matches each line against the regular expression
`^([A-Za-z0-9_\-\.]+(?:\[[A-Za-z0-9_,\-\.]+\])?)\s*(.*)$` and returns
`(package, version.strip() or None)`; if the line does not match
(which happens exactly when it does not begin with an identifier
character) it prints a warning and returns `(line, None)`. -/

/-- Character class `[A-Za-z0-9_\-\.]` of the package identifier. -/
def identChar (c : Char) : Bool :=
  c.isAlpha || c.isDigit || c == '_' || c == '-' || c == '.'

/-- Character class `[A-Za-z0-9_,\-\.]` allowed inside the bracketed
extras suffix. -/
def extrasChar (c : Char) : Bool :=
  identChar c || c == ','

/-- Tries to consume the optional extras group `\[[A-Za-z0-9_,\-\.]+\]`
at the head of `cs`; returns the consumed characters (brackets
included) and the remainder on success. -/
def extrasSplit (cs : List Char) : Option (List Char × List Char) :=
  match cs with
  | '[' :: rest =>
    match rest.takeWhile extrasChar with
    | [] => none
    | inner =>
      match rest.dropWhile extrasChar with
      | ']' :: rest2 => some ('[' :: inner ++ [']'], rest2)
      | _ => none
  | _ => none

/-- Embedding of `parse_requirement_line`.  The greedy regex match is
deterministic: the identifier part is the longest prefix of identifier
characters, the extras group is consumed when it matches at that
point, the following whitespace is skipped, and the remainder is the
version (stripped; `None` when empty).  When the line does not begin
with an identifier character the regex fails and the whole line is
returned as the package. -/
def parse_requirement_line (line : String) : String × Option String :=
  match line.data.takeWhile identChar with
  | [] => (line, none)
  | ident =>
    let rest := line.data.dropWhile identChar
    match extrasSplit rest with
    | some (ex, rest2) =>
      let ver := rest2.dropWhile Char.isWhitespace
      if ver.isEmpty then (String.mk (ident ++ ex), none)
      else (String.mk (ident ++ ex), some (String.mk (trimChars ver)))
    | none =>
      let ver := rest.dropWhile Char.isWhitespace
      if ver.isEmpty then (String.mk ident, none)
      else (String.mk ident, some (String.mk (trimChars ver)))

/-! ## Include Resolver (`parse_requirements`)

The script resolves `-r` / `--requirement` includes recursively,
guarding against cycles with a set of already visited absolute paths
that is shared (mutated) across sibling recursive calls.  The file
system is modelled as an association list from absolute path to the
list of raw lines of the file; `os.path.exists` corresponds to a
successful lookup.  The Python `os.path` functions are abstracted into
a `PathOps` record, so the resolver theorems hold for every path
semantics; a concrete POSIX-like instance is provided for the worked
examples. -/

/-- The three `os.path` operations the script uses. -/
structure PathOps where
  abspath : String → String
  dirname : String → String
  join : String → String → String

/-- Model of POSIX `os.path.dirname` for simple paths: everything
before the last slash (empty when there is no slash). -/
def posixDirname (p : String) : String :=
  String.mk (((p.data.reverse.dropWhile (fun c => c != '/')).drop 1).reverse)

/-- Modelled from the spec and POSIX `os.path`: a concrete `PathOps`
for simple absolute paths with the working directory at the root,
used only to instantiate the worked examples. -/
def simplePO : PathOps :=
  { abspath := fun p => if strStartsWith p "/" then p else "/" ++ p
    dirname := posixDirname
    join := fun d f => if strStartsWith f "/" then f else if d = "" then f else d ++ "/" ++ f }

/-- The per-line loop of `parse_requirements`, parameterised by the
recursive call `recur` used for nested includes.  The result pairs the
accumulated requirement lines with the updated visited set (Python
mutates the shared set, which the embedding threads explicitly);
`none` signals fuel exhaustion inside `recur`. -/
def parseLoop (recur : String → List String → Option (List String × List String))
    (po : PathOps) (dir : String) :
    List String → List String → Option (List String × List String)
  | [], visited => some ([], visited)
  | l :: rest, visited =>
    let t := strTrim l
    if t = "" ∨ strStartsWith t "#" then
      parseLoop recur po dir rest visited
    else if strStartsWith t "-r" ∨ strStartsWith t "--requirement" then
      if (pySplit t).length = 2 then
        match recur (po.join dir ((pySplit t).getD 1 "")) visited with
        | none => none
        | some (sub, v1) =>
          match parseLoop recur po dir rest v1 with
          | none => none
          | some (tail, v2) => some (sub ++ tail, v2)
      else
        parseLoop recur po dir rest visited
    else
      match parseLoop recur po dir rest visited with
      | none => none
      | some (tail, v1) => some (t :: tail, v1)

/-- Fuel-indexed embedding of `parse_requirements`.  Each file-level
recursive call consumes one unit of fuel; `none` marks fuel
exhaustion, which (as proved below) never happens when the fuel
exceeds the number of unvisited files. -/
def parseRequirementsAux (po : PathOps) (fs : List (String × List String)) :
    Nat → String → List String → Option (List String × List String)
  | 0, _, _ => none
  | fuel + 1, path, visited =>
    let ap := po.abspath path
    if ap ∈ visited then some ([], visited)
    else
      match fs.lookup ap with
      | none => some ([], visited)
      | some lines =>
        parseLoop (fun p v => parseRequirementsAux po fs fuel p v) po (po.dirname ap)
          lines (ap :: visited)

/-- Embedding of `parse_requirements(file_path)` called with the
default empty visited set: the fuel `fs.length + 1` is always
sufficient (see the adequacy theorem). -/
def parse_requirements (po : PathOps) (fs : List (String × List String))
    (path : String) : List String :=
  match parseRequirementsAux po fs (fs.length + 1) path [] with
  | some rv => rv.1
  | none => []

/-! ## Ordered dictionary accumulation (`main`) -/

/-- Model of `OrderedDict` assignment `m[k] = v`: when the key is
present its value is updated in place (the entry keeps its position),
otherwise the pair is appended at the end. -/
def insertLWW (m : List (String × Option String)) (k : String) (v : Option String) :
    List (String × Option String) :=
  if k ∈ m.map Prod.fst then
    m.map (fun p => if p.1 = k then (k, v) else p)
  else
    m ++ [(k, v)]

/-- The accumulation loop of `main`: parse every resolved requirement
line and assign it into the ordered dictionary. -/
def buildDeps (reqs : List String) : List (String × Option String) :=
  reqs.foldl (fun m line => insertLWW m (parse_requirement_line line).1
    (parse_requirement_line line).2) []

/-! ## Manifest Generator (`generate_pyproject_toml`) -/

/-- Embedding of `generate_pyproject_toml`: the fixed header template,
one line per dependency appended in iteration order (Python's
`if ver:` renders `"*"` both for `None` and for an empty string), and
the fixed build-system footer. -/
def generate_pyproject_toml (dependencies : List (String × Option String)) : String :=
  let toml0 := "[tool.poetry]\nname = \"your-project-name\"\nversion = \"0.1.0\"\ndescription = \"A short description of your project.\"\nauthors = [\"Your Name <you@example.com>\"]\n\n[tool.poetry.dependencies]\npython = \"^3.8\"\n"
  let toml1 := dependencies.foldl
    (fun acc pv =>
      match pv.2 with
      | some ver =>
        if ver = "" then acc ++ pv.1 ++ " = \"*\"\n"
        else acc ++ pv.1 ++ " = \"" ++ ver ++ "\"\n"
      | none => acc ++ pv.1 ++ " = \"*\"\n")
    toml0
  toml1 ++ "\n\n[build-system]\nrequires = [\"poetry-core>=1.0.0\"]\nbuild-backend = \"poetry.core.masonry.api\"\n"

/-- The full header emitted before the input-derived dependencies. -/
def genHeader : String :=
  "[tool.poetry]\nname = \"your-project-name\"\nversion = \"0.1.0\"\ndescription = \"A short description of your project.\"\nauthors = [\"Your Name <you@example.com>\"]\n\n[tool.poetry.dependencies]\npython = \"^3.8\"\n"

/-- The fixed build-system footer. -/
def genFooter : String :=
  "\n\n[build-system]\nrequires = [\"poetry-core>=1.0.0\"]\nbuild-backend = \"poetry.core.masonry.api\"\n"

/-- The header up to (excluding) the implicit python dependency line. -/
def genHeaderPre : String :=
  "[tool.poetry]\nname = \"your-project-name\"\nversion = \"0.1.0\"\ndescription = \"A short description of your project.\"\nauthors = [\"Your Name <you@example.com>\"]\n\n[tool.poetry.dependencies]\n"

/-- The implicit python dependency line of the template. -/
def pythonDepLine : String := "python = \"^3.8\"\n"

/-- Rendering of one dependency entry, mirroring the truthiness test
`if ver:` of the generator's loop body. -/
def depLine (pv : String × Option String) : String :=
  match pv.2 with
  | some ver => if ver = "" then pv.1 ++ " = \"*\"\n" else pv.1 ++ " = \"" ++ ver ++ "\"\n"
  | none => pv.1 ++ " = \"*\"\n"

/-- Concatenation of a list of strings. -/
def concatStrs : List String → String
  | [] => ""
  | s :: rest => s ++ concatStrs rest

/-! ## Worked example file systems -/

/-- File system of the spec's worked example: a top-level file with a
nested include. -/
def fsC4 : List (String × List String) :=
  [("/dir/req.txt", ["a==1.0", "-r sub.txt"]),
   ("/dir/sub.txt", ["b==2.0", "a==3.0"])]

/-- File system with a circular include: `a.txt` and `b.txt` include
each other. -/
def fsCirc : List (String × List String) :=
  [("/d/a.txt", ["-r b.txt", "x==1"]),
   ("/d/b.txt", ["-r a.txt", "y==2"])]

/-! ## Derived notions used by the statements -/

/-- Keys without their later duplicate occurrences: the key order of
an insertion-ordered map that keeps the first position on update. -/
def firstOccur (l : List String) : List String :=
  match l with
  | [] => []
  | k :: ks => k :: firstOccur (ks.filter (fun x => decide (x ≠ k)))
termination_by l.length
decreasing_by simp_wf; exact Nat.lt_succ_of_le (List.length_filter_le _ _)

/-- The non-empty non-comment lines of a file, trimmed, in order. -/
def cleanLines (lines : List String) : List String :=
  (lines.map strTrim).filter (fun t => decide (¬ (t = "" ∨ strStartsWith t "#" = true)))

/-- Folding a list of parsed pairs into the ordered dictionary. -/
def applyAll (m : List (String × Option String)) (ps : List (String × Option String)) :
    List (String × Option String) :=
  ps.foldl (fun m q => insertLWW m q.1 q.2) m

/-- Dictionary lookup on the association list: the value stored at
the first entry whose key equals `k`. -/
def lookupD (k : String) : List (String × Option String) → Option (Option String)
  | [] => none
  | p :: t => if p.1 = k then some p.2 else lookupD k t

/-- The number of file-system keys not yet visited. -/
def unvisitedCount (fs : List (String × List String)) (visited : List String) : Nat :=
  ((fs.map Prod.fst).filter (fun k => decide (k ∉ visited))).length

/-! ## Generator lemmas -/

/-- The generator's accumulation loop appends exactly one rendered
line per dependency. -/
theorem foldl_depLine (deps : List (String × Option String)) (acc : String) :
    deps.foldl
      (fun acc pv =>
        match pv.2 with
        | some ver =>
          if ver = "" then acc ++ pv.1 ++ " = \"*\"\n"
          else acc ++ pv.1 ++ " = \"" ++ ver ++ "\"\n"
        | none => acc ++ pv.1 ++ " = \"*\"\n")
      acc = acc ++ concatStrs (deps.map depLine) := by
  induction deps generalizing acc with
  | nil => simp [concatStrs]
  | cons q rest ih =>
    simp only [List.foldl_cons, List.map_cons, concatStrs]
    rw [ih]
    cases h : q.2 with
    | none => simp [depLine, h, String.append_assoc]
    | some v =>
      by_cases hv : v = "" <;> simp [depLine, h, hv, String.append_assoc]

/-- Decomposition of the generator output into header, rendered
dependency lines and footer. -/
theorem generate_decomp (deps : List (String × Option String)) :
    generate_pyproject_toml deps = genHeader ++ concatStrs (deps.map depLine) ++ genFooter := by
  simp only [generate_pyproject_toml, foldl_depLine, genHeader, genFooter]

set_option maxRecDepth 100000 in
/-- The fixed header splits at the implicit python dependency line. -/
theorem genHeader_split : genHeader = genHeaderPre ++ pythonDepLine := by decide

/-! ## Resolver branch lemmas -/

/-- A line that trims to the empty string or to a comment is
skipped. -/
theorem parseLoop_cons_skip (recur : String → List String → Option (List String × List String))
    (po : PathOps) (dir l : String) (rest visited : List String)
    (hskip : strTrim l = "" ∨ strStartsWith (strTrim l) "#" = true) :
    parseLoop recur po dir (l :: rest) visited = parseLoop recur po dir rest visited := by
  simp only [parseLoop]
  rw [if_pos hskip]

/-- Include branch when the nested resolution runs out of fuel. -/
theorem parseLoop_include_none (recur : String → List String → Option (List String × List String))
    (po : PathOps) (dir l : String) (rest visited : List String)
    (hns : ¬ (strTrim l = "" ∨ strStartsWith (strTrim l) "#" = true))
    (hdir : strStartsWith (strTrim l) "-r" = true ∨ strStartsWith (strTrim l) "--requirement" = true)
    (hlen : (pySplit (strTrim l)).length = 2)
    (hrec : recur (po.join dir ((pySplit (strTrim l)).getD 1 "")) visited = none) :
    parseLoop recur po dir (l :: rest) visited = none := by
  simp only [parseLoop]
  rw [if_neg hns, if_pos hdir, if_pos hlen, hrec]

/-- Include branch on a successful nested resolution: the nested
result is appended in front of the processing of the remaining lines,
which continues with the updated visited set. -/
theorem parseLoop_include_some (recur : String → List String → Option (List String × List String))
    (po : PathOps) (dir l : String) (rest visited : List String)
    (sub v1 : List String)
    (hns : ¬ (strTrim l = "" ∨ strStartsWith (strTrim l) "#" = true))
    (hdir : strStartsWith (strTrim l) "-r" = true ∨ strStartsWith (strTrim l) "--requirement" = true)
    (hlen : (pySplit (strTrim l)).length = 2)
    (hrec : recur (po.join dir ((pySplit (strTrim l)).getD 1 "")) visited = some (sub, v1)) :
    parseLoop recur po dir (l :: rest) visited =
      (parseLoop recur po dir rest v1).map (fun tv => (sub ++ tv.1, tv.2)) := by
  simp only [parseLoop]
  rw [if_neg hns, if_pos hdir, if_pos hlen, hrec]
  dsimp only
  cases parseLoop recur po dir rest v1 with
  | none => rfl
  | some tv => rfl

/-- The include branch in bind form: recurse on the joined path and
append the recursive result. -/
theorem parseLoop_cons_include (recur : String → List String → Option (List String × List String))
    (po : PathOps) (dir l : String) (rest visited : List String)
    (hns : ¬ (strTrim l = "" ∨ strStartsWith (strTrim l) "#" = true))
    (hdir : strStartsWith (strTrim l) "-r" = true ∨ strStartsWith (strTrim l) "--requirement" = true)
    (hlen : (pySplit (strTrim l)).length = 2) :
    parseLoop recur po dir (l :: rest) visited =
      (recur (po.join dir ((pySplit (strTrim l)).getD 1 "")) visited).bind
        (fun sv => (parseLoop recur po dir rest sv.2).map
          (fun tv => (sv.1 ++ tv.1, tv.2))) := by
  cases hrec : recur (po.join dir ((pySplit (strTrim l)).getD 1 "")) visited with
  | none => rw [parseLoop_include_none recur po dir l rest visited hns hdir hlen hrec]; rfl
  | some sv =>
    obtain ⟨sub, v1⟩ := sv
    rw [parseLoop_include_some recur po dir l rest visited sub v1 hns hdir hlen hrec,
      Option.some_bind]

/-- An include line whose split does not have exactly two tokens is
skipped. -/
theorem parseLoop_cons_malformed (recur : String → List String → Option (List String × List String))
    (po : PathOps) (dir l : String) (rest visited : List String)
    (hns : ¬ (strTrim l = "" ∨ strStartsWith (strTrim l) "#" = true))
    (hdir : strStartsWith (strTrim l) "-r" = true ∨ strStartsWith (strTrim l) "--requirement" = true)
    (hlen : (pySplit (strTrim l)).length ≠ 2) :
    parseLoop recur po dir (l :: rest) visited = parseLoop recur po dir rest visited := by
  simp only [parseLoop]
  rw [if_neg hns, if_pos hdir, if_neg hlen]

/-- Every other non-skipped line is appended verbatim (in its trimmed
form) in front of the rest of the file. -/
theorem parseLoop_cons_raw (recur : String → List String → Option (List String × List String))
    (po : PathOps) (dir l : String) (rest visited : List String)
    (hns : ¬ (strTrim l = "" ∨ strStartsWith (strTrim l) "#" = true))
    (hnd : ¬ (strStartsWith (strTrim l) "-r" = true ∨ strStartsWith (strTrim l) "--requirement" = true)) :
    parseLoop recur po dir (l :: rest) visited =
      (parseLoop recur po dir rest visited).map
        (fun tv => (strTrim l :: tv.1, tv.2)) := by
  simp only [parseLoop]
  rw [if_neg hns, if_neg hnd]
  cases parseLoop recur po dir rest visited with
  | none => rfl
  | some tv => rfl

/-- A call on an already visited path returns the empty contribution
and an unchanged visited set. -/
theorem parseReqAux_visited (po : PathOps) (fs : List (String × List String))
    (fuel : Nat) (path : String) (visited : List String)
    (h : po.abspath path ∈ visited) :
    parseRequirementsAux po fs (fuel + 1) path visited = some ([], visited) := by
  simp only [parseRequirementsAux]
  rw [if_pos h]

/-- A call on a path that is not in the file system returns the empty
contribution and an unchanged visited set. -/
theorem parseReqAux_missing (po : PathOps) (fs : List (String × List String))
    (fuel : Nat) (path : String) (visited : List String)
    (hnv : po.abspath path ∉ visited)
    (hmiss : List.lookup (po.abspath path) fs = none) :
    parseRequirementsAux po fs (fuel + 1) path visited = some ([], visited) := by
  simp only [parseRequirementsAux]
  rw [if_neg hnv, hmiss]

/-! ## Ordered dictionary lemmas -/

/-- `buildDeps` is `applyAll` over the parsed lines. -/
theorem buildDeps_eq_applyAll (reqs : List String) :
    buildDeps reqs = applyAll [] (reqs.map parse_requirement_line) := by
  unfold buildDeps applyAll
  rw [List.foldl_map]

/-- Updating an existing key leaves the key list untouched. -/
theorem keys_insertLWW_mem (m : List (String × Option String)) (k : String)
    (v : Option String) (h : k ∈ m.map Prod.fst) :
    (insertLWW m k v).map Prod.fst = m.map Prod.fst := by
  unfold insertLWW
  rw [if_pos h, List.map_map]
  refine List.map_congr_left fun p _ => ?_
  by_cases hp : p.1 = k
  · simp [hp]
  · simp [hp]

/-- Inserting a fresh key appends it at the end of the key list. -/
theorem keys_insertLWW_not_mem (m : List (String × Option String)) (k : String)
    (v : Option String) (h : k ∉ m.map Prod.fst) :
    (insertLWW m k v).map Prod.fst = m.map Prod.fst ++ [k] := by
  unfold insertLWW
  rw [if_neg h, List.map_append]
  rfl

/-- The dictionary keys stay duplicate-free under assignment. -/
theorem nodup_keys_insertLWW (m : List (String × Option String)) (k : String)
    (v : Option String) (h : (m.map Prod.fst).Nodup) :
    ((insertLWW m k v).map Prod.fst).Nodup := by
  by_cases hk : k ∈ m.map Prod.fst
  · rw [keys_insertLWW_mem m k v hk]; exact h
  · rw [keys_insertLWW_not_mem m k v hk]
    simp [List.nodup_append, h, hk]

/-- A key that does not occur has no stored value. -/
theorem lookupD_eq_none (m : List (String × Option String)) (k : String)
    (h : k ∉ m.map Prod.fst) : lookupD k m = none := by
  induction m with
  | nil => rfl
  | cons p t ih =>
    have hp : ¬ p.1 = k := fun he => h (by simp [he])
    have ht : k ∉ t.map Prod.fst := fun hm => h (by simp [hm])
    simp [lookupD, hp, ih ht]

/-- Lookup skips a front part in which the key is missing. -/
theorem lookupD_append_of_none (m l : List (String × Option String)) (k : String)
    (h : lookupD k m = none) : lookupD k (m ++ l) = lookupD k l := by
  induction m with
  | nil => rfl
  | cons p t ih =>
    by_cases hp : p.1 = k
    · simp [lookupD, hp] at h
    · simp only [lookupD, hp, if_false, List.cons_append, ite_false] at h ⊢
      simp [lookupD, hp] at h ⊢
      exact ih h

/-- In-place replacement makes the looked-up value the new one. -/
theorem lookupD_mapReplace (m : List (String × Option String)) (k : String)
    (v : Option String) (h : k ∈ m.map Prod.fst) :
    lookupD k (m.map fun p => if p.1 = k then (k, v) else p) = some v := by
  induction m with
  | nil => simp at h
  | cons p t ih =>
    by_cases hp : p.1 = k
    · simp [List.map_cons, if_pos hp, lookupD]
    · have hkm : k ∈ t.map Prod.fst := by
        rcases List.mem_cons.mp h with h1 | h1
        · exact absurd h1.symm hp
        · exact h1
      simp only [List.map_cons, if_neg hp, lookupD, hp, if_false]
      simpa [hp] using ih hkm

/-- In-place replacement of the entry for `k` does not change the
value looked up at a different key. -/
theorem lookupD_mapReplace_other (m : List (String × Option String)) (k k' : String)
    (v : Option String) (hne : k' ≠ k) :
    lookupD k' (m.map fun p => if p.1 = k then (k, v) else p) = lookupD k' m := by
  induction m with
  | nil => rfl
  | cons p t ih =>
    by_cases hp : p.1 = k
    · have h1 : ¬ k = k' := fun he => hne he.symm
      simp [List.map_cons, if_pos hp, lookupD, h1, hp ▸ h1, ih]
    · by_cases hk' : p.1 = k'
      · simp [List.map_cons, if_neg hp, lookupD, hk', hne]
      · simp [List.map_cons, if_neg hp, lookupD, hk', ih]

/-- Appending an entry with another key does not affect the lookup. -/
theorem lookupD_append_single (m : List (String × Option String)) (k k' : String)
    (v : Option String) (hne : k' ≠ k) :
    lookupD k' (m ++ [(k, v)]) = lookupD k' m := by
  induction m with
  | nil => simp [lookupD, Ne.symm hne]
  | cons p t ih =>
    by_cases hk' : p.1 = k'
    · simp [lookupD, hk']
    · simp [lookupD, hk', ih]

/-- Assignment followed by lookup at the same key yields the new
value (last write wins). -/
theorem lookupD_insertLWW_self (m : List (String × Option String)) (k : String)
    (v : Option String) :
    lookupD k (insertLWW m k v) = some v := by
  unfold insertLWW
  by_cases h : k ∈ m.map Prod.fst
  · rw [if_pos h]; exact lookupD_mapReplace m k v h
  · rw [if_neg h, lookupD_append_of_none m _ k (lookupD_eq_none m k h)]
    simp [lookupD]

/-- Assignment at one key does not change lookups at other keys. -/
theorem lookupD_insertLWW_other (m : List (String × Option String)) (k k' : String)
    (v : Option String) (hne : k' ≠ k) :
    lookupD k' (insertLWW m k v) = lookupD k' m := by
  unfold insertLWW
  by_cases h : k ∈ m.map Prod.fst
  · rw [if_pos h]; exact lookupD_mapReplace_other m k k' v hne
  · rw [if_neg h]; exact lookupD_append_single m k k' v hne

/-- Folding parsed pairs into the dictionary keeps the keys
duplicate-free. -/
theorem nodup_keys_applyAll (ps : List (String × Option String)) :
    ∀ m, ((m : List (String × Option String)).map Prod.fst).Nodup →
      ((applyAll m ps).map Prod.fst).Nodup := by
  induction ps with
  | nil => exact fun m h => h
  | cons q t ih =>
    intro m h
    exact ih (insertLWW m q.1 q.2) (nodup_keys_insertLWW m q.1 q.2 h)

/-- After folding, the value stored at a key is the one of the last
assignment to that key, and an untouched key keeps its old value. -/
theorem lookupD_applyAll (ps : List (String × Option String)) :
    ∀ (m : List (String × Option String)) (k : String),
      lookupD k (applyAll m ps) =
        match ps.reverse.find? (fun q => q.1 == k) with
        | some r => some r.2
        | none => lookupD k m := by
  induction ps with
  | nil => intro m k; rfl
  | cons q t ih =>
    intro m k
    have step : applyAll m (q :: t) = applyAll (insertLWW m q.1 q.2) t := rfl
    rw [step, ih, List.reverse_cons, List.find?_append]
    cases hf : t.reverse.find? (fun q => q.1 == k) with
    | some r => simp [Option.or]
    | none =>
      simp only [Option.none_or]
      by_cases hq : q.1 = k
      · have : (fun r => r.1 == k) q = true := by simp [hq]
        simp only [List.find?_cons, this]
        subst hq
        exact lookupD_insertLWW_self m q.1 q.2
      · have : (fun r => r.1 == k) q = false := by simp [hq]
        simp only [List.find?_cons, this, List.find?_nil]
        exact lookupD_insertLWW_other m q.1 k q.2 (fun he => hq he.symm)

/-- Filtering by the empty exclusion list is the identity. -/
theorem filter_not_mem_nil (L : List String) :
    L.filter (fun x => decide (x ∉ ([] : List String))) = L := by
  induction L with
  | nil => rfl
  | cons a t ih => simp [ih]

/-- After folding, the key order is the order of first occurrence:
the fresh keys of the parsed pairs, with later duplicates removed,
appended after the keys already present. -/
theorem keys_applyAll (ps : List (String × Option String)) :
    ∀ m : List (String × Option String),
      (applyAll m ps).map Prod.fst =
        m.map Prod.fst ++
          firstOccur ((ps.map Prod.fst).filter
            (fun x => decide (x ∉ m.map Prod.fst))) := by
  induction ps with
  | nil => intro m; simp [applyAll, firstOccur]
  | cons q t ih =>
    intro m
    have step : applyAll m (q :: t) = applyAll (insertLWW m q.1 q.2) t := rfl
    rw [step, ih]
    by_cases hq : q.1 ∈ m.map Prod.fst
    · rw [keys_insertLWW_mem m q.1 q.2 hq]
      have hdrop : (((q :: t).map Prod.fst).filter
          (fun x => decide (x ∉ m.map Prod.fst))) =
          ((t.map Prod.fst).filter (fun x => decide (x ∉ m.map Prod.fst))) := by
        simp [hq]
      rw [hdrop]
    · rw [keys_insertLWW_not_mem m q.1 q.2 hq]
      have hkeep : (((q :: t).map Prod.fst).filter
          (fun x => decide (x ∉ m.map Prod.fst))) =
          q.1 :: ((t.map Prod.fst).filter (fun x => decide (x ∉ m.map Prod.fst))) := by
        simp [hq]
      rw [hkeep]
      have hfo : firstOccur (q.1 :: ((t.map Prod.fst).filter
          (fun x => decide (x ∉ m.map Prod.fst)))) =
          q.1 :: firstOccur (((t.map Prod.fst).filter
            (fun x => decide (x ∉ m.map Prod.fst))).filter
              (fun x => decide (x ≠ q.1))) := by
        rw [firstOccur]
      rw [hfo]
      have hfuse : (((t.map Prod.fst).filter
          (fun x => decide (x ∉ m.map Prod.fst))).filter
            (fun x => decide (x ≠ q.1))) =
          ((t.map Prod.fst).filter
            (fun x => decide (x ∉ m.map Prod.fst ++ [q.1]))) := by
        rw [List.filter_filter]
        refine List.filter_congr fun x _ => ?_
        by_cases h1 : x ∈ m.map Prod.fst
        · simp [h1]
        · by_cases h2 : x = q.1
          · simp [h1, h2]
          · simp [h1, h2]
      rw [hfuse]
      simp

/-- On a file without include directives the loop returns exactly the
trimmed non-empty non-comment lines, in file order, and leaves the
visited set unchanged. -/
theorem parseLoop_no_directive (recur : String → List String → Option (List String × List String))
    (po : PathOps) (dir : String) :
    ∀ (lines visited : List String),
      (∀ l ∈ lines, strStartsWith (strTrim l) "-r" = false ∧
        strStartsWith (strTrim l) "--requirement" = false) →
      parseLoop recur po dir lines visited = some (cleanLines lines, visited) := by
  intro lines
  induction lines with
  | nil => intro visited _; simp [parseLoop, cleanLines]
  | cons l rest ih =>
    intro visited h
    have hl := h l (List.mem_cons_self l rest)
    have hrest : ∀ x ∈ rest, strStartsWith (strTrim x) "-r" = false ∧
        strStartsWith (strTrim x) "--requirement" = false :=
      fun x hx => h x (List.mem_cons_of_mem l hx)
    by_cases hskip : strTrim l = "" ∨ strStartsWith (strTrim l) "#" = true
    · rw [parseLoop_cons_skip recur po dir l rest visited hskip, ih visited hrest]
      have hc : (!decide (strTrim l = "") && !strStartsWith (strTrim l) "#") = false := by
        rcases hskip with h1 | h1
        · simp [h1]
        · simp [h1]
      simp [cleanLines, List.filter_cons, hc]
    · rw [parseLoop_cons_raw recur po dir l rest visited hskip (by simp [hl.1, hl.2]),
        ih visited hrest]
      have hc : (!decide (strTrim l = "") && !strStartsWith (strTrim l) "#") = true := by
        push_neg at hskip
        simp [hskip.1, hskip.2]
      simp [cleanLines, List.filter_cons, hc]

/-! ## Claim C2 -/

/-- C2: the dependency mapping has duplicate-free keys; the value at
each key is the one of the last occurrence of that key in the parsed
lines (last write wins); the key order is the order of first
occurrence; and for a file with no include directives the resolved
lines (and hence the mapping order) follow the input line order. -/
theorem c2_insertion_order_lww :
    (∀ reqs : List String, ((buildDeps reqs).map Prod.fst).Nodup) ∧
    (∀ (reqs : List String) (k : String),
      lookupD k (buildDeps reqs) =
        ((reqs.map parse_requirement_line).reverse.find?
          (fun q => q.1 == k)).map Prod.snd) ∧
    (∀ reqs : List String,
      (buildDeps reqs).map Prod.fst =
        firstOccur ((reqs.map parse_requirement_line).map Prod.fst)) ∧
    (∀ (po : PathOps) (fs : List (String × List String)) (path : String)
        (lines : List String),
      List.lookup (po.abspath path) fs = some lines →
      (∀ l ∈ lines, strStartsWith (strTrim l) "-r" = false ∧
        strStartsWith (strTrim l) "--requirement" = false) →
      parse_requirements po fs path = cleanLines lines) := by
  refine ⟨fun reqs => ?_, fun reqs k => ?_, fun reqs => ?_,
    fun po fs path lines hlk hnd => ?_⟩
  · rw [buildDeps_eq_applyAll]
    exact nodup_keys_applyAll _ [] (by simp)
  · rw [buildDeps_eq_applyAll, lookupD_applyAll]
    cases (reqs.map parse_requirement_line).reverse.find? (fun q => q.1 == k) with
    | some r => rfl
    | none => rfl
  · rw [buildDeps_eq_applyAll, keys_applyAll]
    simp only [List.map_nil, List.nil_append, filter_not_mem_nil]
  · have key : parseRequirementsAux po fs (fs.length + 1) path [] =
        some (cleanLines lines, [po.abspath path]) := by
      simp only [parseRequirementsAux]
      rw [if_neg (List.not_mem_nil _), hlk]
      exact parseLoop_no_directive _ po _ lines _ hnd
    unfold parse_requirements
    rw [key]

/-- Witness for C2 on a concrete single-file system with a blank
line, a comment and a duplicate package. -/
theorem c2_insertion_order_lww_witness :
    parse_requirements simplePO
        [("/w/r.txt", ["x==1", "", "# note", "y==2", "x==3"])] "/w/r.txt" =
      cleanLines ["x==1", "", "# note", "y==2", "x==3"] :=
  c2_insertion_order_lww.2.2.2 simplePO
    [("/w/r.txt", ["x==1", "", "# note", "y==2", "x==3"])] "/w/r.txt"
    ["x==1", "", "# note", "y==2", "x==3"] (by decide) (by decide)

/-! ## Claim C1 -/

/-- C1: for a trimmed, non-empty, non-comment line the resolver loop
behaves as follows.  A line starting with `-r` or `--requirement`
that splits into exactly two tokens recurses on the second token
joined to the current file's directory and appends the recursive
result; with any other token count the line is skipped; every other
line is appended verbatim (in trimmed form). -/
theorem c1_include_directive_lines (po : PathOps) (fs : List (String × List String))
    (fuel : Nat) (dir l : String) (rest visited : List String)
    (hne : strTrim l ≠ "") (hnc : strStartsWith (strTrim l) "#" = false) :
    ((strStartsWith (strTrim l) "-r" = true ∨ strStartsWith (strTrim l) "--requirement" = true) →
      (((pySplit (strTrim l)).length = 2 →
          parseLoop (fun p v => parseRequirementsAux po fs fuel p v) po dir (l :: rest) visited =
            (parseRequirementsAux po fs fuel
                (po.join dir ((pySplit (strTrim l)).getD 1 "")) visited).bind
              (fun sv =>
                (parseLoop (fun p v => parseRequirementsAux po fs fuel p v) po dir rest sv.2).map
                  (fun tv => (sv.1 ++ tv.1, tv.2)))) ∧
        ((pySplit (strTrim l)).length ≠ 2 →
          parseLoop (fun p v => parseRequirementsAux po fs fuel p v) po dir (l :: rest) visited =
            parseLoop (fun p v => parseRequirementsAux po fs fuel p v) po dir rest visited))) ∧
    ((strStartsWith (strTrim l) "-r" = false ∧ strStartsWith (strTrim l) "--requirement" = false) →
      parseLoop (fun p v => parseRequirementsAux po fs fuel p v) po dir (l :: rest) visited =
        (parseLoop (fun p v => parseRequirementsAux po fs fuel p v) po dir rest visited).map
          (fun tv => (strTrim l :: tv.1, tv.2))) := by
  have hns : ¬ (strTrim l = "" ∨ strStartsWith (strTrim l) "#" = true) := by
    simp [hne, hnc]
  refine ⟨fun hdir => ⟨fun hlen => ?_, fun hlen => ?_⟩, fun hnd => ?_⟩
  · exact parseLoop_cons_include _ po dir l rest visited hns hdir hlen
  · exact parseLoop_cons_malformed _ po dir l rest visited hns hdir hlen
  · exact parseLoop_cons_raw _ po dir l rest visited hns (by simp [hnd.1, hnd.2])

/-- Witness for C1 at a concrete raw requirement line. -/
theorem c1_include_directive_lines_witness :
    parseLoop (fun p v => parseRequirementsAux simplePO [] 0 p v) simplePO "/d"
        ["a==1.0"] [] =
      (parseLoop (fun p v => parseRequirementsAux simplePO [] 0 p v) simplePO "/d" [] []).map
        (fun tv => (strTrim "a==1.0" :: tv.1, tv.2)) :=
  (c1_include_directive_lines simplePO [] 0 "/d" "a==1.0" [] []
    (by decide) (by decide)).2 ⟨by decide, by decide⟩

/-! ## Claim C4 -/

/-- C4: on the worked example (top file `a==1.0`, `-r sub.txt`; the
included `sub.txt` holding `b==2.0`, `a==3.0`) the final mapping
binds `a` to `==3.0` and `b` to `==2.0`, and the output has exactly
two dependency lines. -/
theorem c4_worked_example :
    buildDeps (parse_requirements simplePO fsC4 "/dir/req.txt") =
      [("a", some "==3.0"), ("b", some "==2.0")] ∧
    (buildDeps (parse_requirements simplePO fsC4 "/dir/req.txt")).length = 2 ∧
    concatStrs ((buildDeps (parse_requirements simplePO fsC4 "/dir/req.txt")).map depLine) =
      "a = \"==3.0\"\nb = \"==2.0\"\n" := by
  refine ⟨by decide, by decide, by decide⟩

/-! ## Claim C8 -/

/-- C8: a path that does not exist in the file system resolves to the
empty contribution with an unchanged visited set, and an include line
naming a missing file leaves the processing of the remaining lines of
the including file unchanged. -/
theorem c8_missing_file_nonfatal :
    (∀ (po : PathOps) (fs : List (String × List String)) (fuel : Nat)
        (path : String) (visited : List String),
      po.abspath path ∉ visited →
      List.lookup (po.abspath path) fs = none →
      parseRequirementsAux po fs (fuel + 1) path visited = some ([], visited)) ∧
    (∀ (po : PathOps) (fs : List (String × List String)) (fuel : Nat)
        (dir l : String) (rest visited : List String),
      ¬ (strTrim l = "" ∨ strStartsWith (strTrim l) "#" = true) →
      (strStartsWith (strTrim l) "-r" = true ∨ strStartsWith (strTrim l) "--requirement" = true) →
      (pySplit (strTrim l)).length = 2 →
      po.abspath (po.join dir ((pySplit (strTrim l)).getD 1 "")) ∉ visited →
      List.lookup (po.abspath (po.join dir ((pySplit (strTrim l)).getD 1 ""))) fs = none →
      parseLoop (fun p v => parseRequirementsAux po fs (fuel + 1) p v) po dir (l :: rest) visited =
        parseLoop (fun p v => parseRequirementsAux po fs (fuel + 1) p v) po dir rest visited) := by
  refine ⟨fun po fs fuel path visited hnv hmiss =>
    parseReqAux_missing po fs fuel path visited hnv hmiss,
    fun po fs fuel dir l rest visited hns hdir hlen hnv hmiss => ?_⟩
  rw [parseLoop_include_some _ po dir l rest visited [] visited hns hdir hlen
    (parseReqAux_missing po fs fuel _ visited hnv hmiss)]
  cases parseLoop (fun p v => parseRequirementsAux po fs (fuel + 1) p v) po dir rest visited with
  | none => rfl
  | some tv => simp

/-- Witness for C8: resolving a path absent from the worked-example
file system yields the empty contribution. -/
theorem c8_missing_file_nonfatal_witness :
    parseRequirementsAux simplePO fsC4 1 "/dir/missing.txt" [] = some ([], []) :=
  c8_missing_file_nonfatal.1 simplePO fsC4 0 "/dir/missing.txt" []
    (by decide) (by decide)

/-! ## Visited-set monotonicity, freshness, and fuel adequacy -/

/-- The loop only ever extends the visited set, provided the nested
resolution does so. -/
theorem parseLoop_mono (recur : String → List String → Option (List String × List String))
    (po : PathOps) (dir : String)
    (Hr : ∀ p v r, recur p v = some r → v ⊆ r.2) :
    ∀ (lines visited : List String) (res : List String × List String),
      parseLoop recur po dir lines visited = some res → visited ⊆ res.2 := by
  intro lines
  induction lines with
  | nil =>
    intro visited res h
    simp only [parseLoop, Option.some.injEq] at h
    rw [← h]
    exact List.Subset.refl _
  | cons l rest ih =>
    intro visited res h
    by_cases hskip : strTrim l = "" ∨ strStartsWith (strTrim l) "#" = true
    · rw [parseLoop_cons_skip recur po dir l rest visited hskip] at h
      exact ih visited res h
    · by_cases hdir : strStartsWith (strTrim l) "-r" = true ∨
          strStartsWith (strTrim l) "--requirement" = true
      · by_cases hlen : (pySplit (strTrim l)).length = 2
        · cases hrec : recur (po.join dir ((pySplit (strTrim l)).getD 1 "")) visited with
          | none =>
            rw [parseLoop_include_none recur po dir l rest visited hskip hdir hlen hrec] at h
            exact absurd h (by simp)
          | some sv =>
            obtain ⟨sub, v1⟩ := sv
            rw [parseLoop_include_some recur po dir l rest visited sub v1
              hskip hdir hlen hrec] at h
            cases htail : parseLoop recur po dir rest v1 with
            | none => rw [htail] at h; simp at h
            | some tv =>
              rw [htail] at h
              simp only [Option.map_some', Option.some.injEq] at h
              rw [← h]
              exact (Hr _ _ _ hrec).trans (ih v1 tv htail)
        · rw [parseLoop_cons_malformed recur po dir l rest visited hskip hdir hlen] at h
          exact ih visited res h
      · rw [parseLoop_cons_raw recur po dir l rest visited hskip hdir] at h
        cases htail : parseLoop recur po dir rest visited with
        | none => rw [htail] at h; simp at h
        | some tv =>
          rw [htail] at h
          simp only [Option.map_some', Option.some.injEq] at h
          rw [← h]
          exact ih visited tv htail

/-- The resolver only ever extends the visited set. -/
theorem parseReqAux_mono :
    ∀ (fuel : Nat) (po : PathOps) (fs : List (String × List String))
      (path : String) (visited : List String) (res : List String × List String),
      parseRequirementsAux po fs fuel path visited = some res → visited ⊆ res.2 := by
  intro fuel
  induction fuel with
  | zero => intro po fs path visited res h; simp [parseRequirementsAux] at h
  | succ fuel ih =>
    intro po fs path visited res h
    simp only [parseRequirementsAux] at h
    by_cases hv : po.abspath path ∈ visited
    · rw [if_pos hv] at h
      simp only [Option.some.injEq] at h
      rw [← h]
      exact List.Subset.refl _
    · rw [if_neg hv] at h
      cases hlk : List.lookup (po.abspath path) fs with
      | none =>
        rw [hlk] at h
        simp only [Option.some.injEq] at h
        rw [← h]
        exact List.Subset.refl _
      | some lines =>
        rw [hlk] at h
        have hstep := parseLoop_mono _ po _ (fun p v r hr => ih po fs p v r hr)
          lines (po.abspath path :: visited) res h
        exact (List.subset_cons_self _ _).trans hstep

/-- The loop keeps the visited set duplicate-free, provided the
nested resolution does so. -/
theorem parseLoop_nodup (recur : String → List String → Option (List String × List String))
    (po : PathOps) (dir : String)
    (Hr : ∀ p v r, recur p v = some r → v.Nodup → r.2.Nodup) :
    ∀ (lines visited : List String) (res : List String × List String),
      parseLoop recur po dir lines visited = some res → visited.Nodup → res.2.Nodup := by
  intro lines
  induction lines with
  | nil =>
    intro visited res h hn
    simp only [parseLoop, Option.some.injEq] at h
    rw [← h]
    exact hn
  | cons l rest ih =>
    intro visited res h hn
    by_cases hskip : strTrim l = "" ∨ strStartsWith (strTrim l) "#" = true
    · rw [parseLoop_cons_skip recur po dir l rest visited hskip] at h
      exact ih visited res h hn
    · by_cases hdir : strStartsWith (strTrim l) "-r" = true ∨
          strStartsWith (strTrim l) "--requirement" = true
      · by_cases hlen : (pySplit (strTrim l)).length = 2
        · cases hrec : recur (po.join dir ((pySplit (strTrim l)).getD 1 "")) visited with
          | none =>
            rw [parseLoop_include_none recur po dir l rest visited hskip hdir hlen hrec] at h
            exact absurd h (by simp)
          | some sv =>
            obtain ⟨sub, v1⟩ := sv
            rw [parseLoop_include_some recur po dir l rest visited sub v1
              hskip hdir hlen hrec] at h
            cases htail : parseLoop recur po dir rest v1 with
            | none => rw [htail] at h; simp at h
            | some tv =>
              rw [htail] at h
              simp only [Option.map_some', Option.some.injEq] at h
              rw [← h]
              exact ih v1 tv htail (Hr _ _ _ hrec hn)
        · rw [parseLoop_cons_malformed recur po dir l rest visited hskip hdir hlen] at h
          exact ih visited res h hn
      · rw [parseLoop_cons_raw recur po dir l rest visited hskip hdir] at h
        cases htail : parseLoop recur po dir rest visited with
        | none => rw [htail] at h; simp at h
        | some tv =>
          rw [htail] at h
          simp only [Option.map_some', Option.some.injEq] at h
          rw [← h]
          exact ih visited tv htail hn

/-- The resolver keeps the visited set duplicate-free: a path is
added only at the moment its file is read, and only when it is not
yet in the set, so no path is ever read twice. -/
theorem parseReqAux_nodup :
    ∀ (fuel : Nat) (po : PathOps) (fs : List (String × List String))
      (path : String) (visited : List String) (res : List String × List String),
      parseRequirementsAux po fs fuel path visited = some res →
      visited.Nodup → res.2.Nodup := by
  intro fuel
  induction fuel with
  | zero => intro po fs path visited res h _; simp [parseRequirementsAux] at h
  | succ fuel ih =>
    intro po fs path visited res h hn
    simp only [parseRequirementsAux] at h
    by_cases hv : po.abspath path ∈ visited
    · rw [if_pos hv] at h
      simp only [Option.some.injEq] at h
      rw [← h]; exact hn
    · rw [if_neg hv] at h
      cases hlk : List.lookup (po.abspath path) fs with
      | none =>
        rw [hlk] at h
        simp only [Option.some.injEq] at h
        rw [← h]; exact hn
      | some lines =>
        rw [hlk] at h
        exact parseLoop_nodup _ po _ (fun p v r hr hvn => ih po fs p v r hr hvn)
          lines (po.abspath path :: visited) res h (List.nodup_cons.mpr ⟨hv, hn⟩)

/-- Filtering with a pointwise-weaker predicate yields at most as
many elements. -/
theorem length_filter_mono (l : List String) (p q : String → Bool)
    (h : ∀ a, p a = true → q a = true) :
    (l.filter p).length ≤ (l.filter q).length := by
  induction l with
  | nil => exact Nat.le_refl 0
  | cons a t ih =>
    by_cases hp : p a = true
    · simp only [List.filter_cons, hp, h a hp, if_true, List.length_cons]
      exact Nat.succ_le_succ ih
    · have hp' : p a = false := by
        cases hpa : p a
        · rfl
        · exact absurd hpa hp
      simp only [List.filter_cons, hp', if_false, Bool.false_eq_true]
      cases hq : q a
      · simp only [Bool.false_eq_true, if_false]
        exact ih
      · simp only [if_true, List.length_cons]
        exact Nat.le_trans ih (Nat.le_succ _)

/-- Growing the visited set cannot increase the unvisited count. -/
theorem unvisitedCount_le (fs : List (String × List String))
    {v w : List String} (hsub : v ⊆ w) :
    unvisitedCount fs w ≤ unvisitedCount fs v := by
  refine length_filter_mono _ _ _ fun a ha => ?_
  simp only [decide_eq_true_eq] at ha ⊢
  exact fun hav => ha (hsub hav)

/-- Removing a fresh element from the candidates by visiting it
strictly shrinks the filtered key list. -/
theorem length_filter_cons_lt (ap : String) (visited : List String)
    (hnv : ap ∉ visited) :
    ∀ keys : List String, ap ∈ keys →
      (keys.filter (fun k => decide (k ∉ ap :: visited))).length <
        (keys.filter (fun k => decide (k ∉ visited))).length := by
  intro keys
  induction keys with
  | nil => intro hmem; simp at hmem
  | cons a t ih =>
    intro hmem
    by_cases ha : a = ap
    · subst ha
      have h1 : decide (a ∉ a :: visited) = false := by simp
      have h2 : decide (a ∉ visited) = true := decide_eq_true hnv
      simp only [List.filter_cons, h1, h2, if_true, if_false, Bool.false_eq_true,
        List.length_cons]
      refine Nat.lt_succ_of_le (length_filter_mono t _ _ fun x hx => ?_)
      simp only [decide_eq_true_eq, List.mem_cons, not_or] at hx ⊢
      exact hx.2
    · have hmem' : ap ∈ t := by
        rcases List.mem_cons.mp hmem with h1 | h1
        · exact absurd h1.symm ha
        · exact h1
      have heq : decide (a ∉ ap :: visited) = decide (a ∉ visited) :=
        decide_eq_decide.mpr (by simp [ha])
      simp only [List.filter_cons, heq]
      cases hd : decide (a ∉ visited)
      · simp only [Bool.false_eq_true, if_false]
        exact ih hmem'
      · simp only [if_true, List.length_cons]
        exact Nat.succ_lt_succ (ih hmem')

/-- Visiting a fresh file-system key strictly decreases the
unvisited count. -/
theorem unvisitedCount_cons_lt (fs : List (String × List String))
    (ap : String) (visited : List String)
    (hmem : ap ∈ fs.map Prod.fst) (hnv : ap ∉ visited) :
    unvisitedCount fs (ap :: visited) < unvisitedCount fs visited :=
  length_filter_cons_lt ap visited hnv (fs.map Prod.fst) hmem

/-- A successful lookup means the key occurs in the key list. -/
theorem mem_keys_of_lookup (fs : List (String × List String)) (a : String)
    (b : List String) (h : List.lookup a fs = some b) : a ∈ fs.map Prod.fst := by
  induction fs with
  | nil => simp [List.lookup] at h
  | cons p t ih =>
    obtain ⟨k1, b1⟩ := p
    by_cases hb : a = k1
    · simp [hb]
    · have hbeq : (a == k1) = false := beq_eq_false_iff_ne.mpr hb
      simp only [List.lookup, hbeq] at h
      simp only [List.map_cons, List.mem_cons]
      exact Or.inr (ih h)

/-- The loop never exhausts its fuel when the nested resolution has
fuel for every reachable visited set. -/
theorem parseLoop_isSome (recur : String → List String → Option (List String × List String))
    (po : PathOps) (dir : String) (fs : List (String × List String)) (n : Nat)
    (Hmono : ∀ p v r, recur p v = some r → v ⊆ r.2)
    (Hsome : ∀ p v, unvisitedCount fs v < n → (recur p v).isSome) :
    ∀ (lines visited : List String), unvisitedCount fs visited < n →
      (parseLoop recur po dir lines visited).isSome := by
  intro lines
  induction lines with
  | nil => intro visited _; simp [parseLoop]
  | cons l rest ih =>
    intro visited hb
    by_cases hskip : strTrim l = "" ∨ strStartsWith (strTrim l) "#" = true
    · rw [parseLoop_cons_skip recur po dir l rest visited hskip]
      exact ih visited hb
    · by_cases hdir : strStartsWith (strTrim l) "-r" = true ∨
          strStartsWith (strTrim l) "--requirement" = true
      · by_cases hlen : (pySplit (strTrim l)).length = 2
        · have hrec := Hsome (po.join dir ((pySplit (strTrim l)).getD 1 "")) visited hb
          cases hrec' : recur (po.join dir ((pySplit (strTrim l)).getD 1 "")) visited with
          | none => rw [hrec'] at hrec; simp at hrec
          | some sv =>
            obtain ⟨sub, v1⟩ := sv
            rw [parseLoop_include_some recur po dir l rest visited sub v1
              hskip hdir hlen hrec']
            have hb1 : unvisitedCount fs v1 < n :=
              Nat.lt_of_le_of_lt (unvisitedCount_le fs (Hmono _ _ _ hrec')) hb
            have htail := ih v1 hb1
            cases ht : parseLoop recur po dir rest v1 with
            | none => rw [ht] at htail; simp at htail
            | some tv => simp
        · rw [parseLoop_cons_malformed recur po dir l rest visited hskip hdir hlen]
          exact ih visited hb
      · rw [parseLoop_cons_raw recur po dir l rest visited hskip hdir]
        have htail := ih visited hb
        cases ht : parseLoop recur po dir rest visited with
        | none => rw [ht] at htail; simp at htail
        | some tv => simp

/-- Fuel adequacy: the resolver completes whenever the fuel exceeds
the number of unvisited files. -/
theorem parseReqAux_isSome :
    ∀ (fuel : Nat) (po : PathOps) (fs : List (String × List String))
      (path : String) (visited : List String),
      unvisitedCount fs visited < fuel →
      (parseRequirementsAux po fs fuel path visited).isSome := by
  intro fuel
  induction fuel with
  | zero => intro po fs path visited h; exact absurd h (Nat.not_lt_zero _)
  | succ fuel ih =>
    intro po fs path visited hb
    simp only [parseRequirementsAux]
    by_cases hv : po.abspath path ∈ visited
    · rw [if_pos hv]; simp
    · rw [if_neg hv]
      cases hlk : List.lookup (po.abspath path) fs with
      | none => simp
      | some lines =>
        have hmem := mem_keys_of_lookup fs _ _ hlk
        have hlt := unvisitedCount_cons_lt fs (po.abspath path) visited hmem hv
        have hb1 : unvisitedCount fs (po.abspath path :: visited) < fuel := by omega
        exact parseLoop_isSome _ po _ fs fuel
          (fun p v r hr => parseReqAux_mono fuel po fs p v r hr)
          (fun p v h19 => ih po fs p v h19)
          lines (po.abspath path :: visited) hb1

/-- With the empty visited set every file-system key is unvisited. -/
theorem unvisitedCount_nil (fs : List (String × List String)) :
    unvisitedCount fs [] = fs.length := by
  unfold unvisitedCount
  rw [filter_not_mem_nil, List.length_map]

/-! ## Claim C3 -/

/-- C3: include resolution terminates on every input: the default
fuel `fs.length + 1` never runs out; a call on an already visited
canonical path contributes the empty sequence with an unchanged
visited set; and the visited set stays duplicate-free and only grows,
so within one top-level resolution each canonical path is read at
most once. -/
theorem c3_termination_visited_once :
    (∀ (po : PathOps) (fs : List (String × List String)) (path : String),
      (parseRequirementsAux po fs (fs.length + 1) path []).isSome) ∧
    (∀ (po : PathOps) (fs : List (String × List String)) (fuel : Nat)
        (path : String) (visited : List String),
      po.abspath path ∈ visited →
      parseRequirementsAux po fs (fuel + 1) path visited = some ([], visited)) ∧
    (∀ (po : PathOps) (fs : List (String × List String)) (fuel : Nat)
        (path : String) (visited : List String) (res : List String × List String),
      parseRequirementsAux po fs fuel path visited = some res →
      visited.Nodup → res.2.Nodup ∧ visited ⊆ res.2) := by
  refine ⟨fun po fs path => ?_,
    fun po fs fuel path visited h => parseReqAux_visited po fs fuel path visited h,
    fun po fs fuel path visited res h hn =>
      ⟨parseReqAux_nodup fuel po fs path visited res h hn,
       parseReqAux_mono fuel po fs path visited res h⟩⟩
  exact parseReqAux_isSome (fs.length + 1) po fs path []
    (by rw [unvisitedCount_nil]; exact Nat.lt_succ_self _)

/-- Witness for C3 on the circular file system: re-entering an
already visited path returns the empty contribution, and a full run
ends with a duplicate-free visited set containing both files. -/
theorem c3_termination_visited_once_witness :
    parseRequirementsAux simplePO fsCirc 1 "/d/a.txt" ["/d/a.txt"] =
      some ([], ["/d/a.txt"]) ∧
    ((["y==2", "x==1"], ["/d/b.txt", "/d/a.txt"]) :
        List String × List String).2.Nodup ∧
    ([] : List String) ⊆
      ((["y==2", "x==1"], ["/d/b.txt", "/d/a.txt"]) :
        List String × List String).2 :=
  ⟨c3_termination_visited_once.2.1 simplePO fsCirc 0 "/d/a.txt" ["/d/a.txt"] (by decide),
   c3_termination_visited_once.2.2 simplePO fsCirc 3 "/d/a.txt" []
     (["y==2", "x==1"], ["/d/b.txt", "/d/a.txt"]) (by decide) (by decide)⟩

/-! ## Claim C5 -/

set_option maxRecDepth 100000 in
/-- C5: the line `foo==1.2.3` parses to (`foo`, `==1.2.3`), the line
`foo` parses to (`foo`, absent), and a dependency with absent
constraint is rendered by the generator as the line `foo = "*"`. -/
theorem c5_basic_lines :
    parse_requirement_line "foo==1.2.3" = ("foo", some "==1.2.3") ∧
    parse_requirement_line "foo" = ("foo", none) ∧
    generate_pyproject_toml [("foo", none)] =
      genHeader ++ "foo = \"*\"\n" ++ genFooter := by
  refine ⟨by decide, by decide, ?_⟩
  decide

/-! ## Claim C6 -/

/-- C6: a bracketed extras suffix is kept as part of the package
token: `foo[extra1,extra2]>=1.0,<2.0` parses to package
`foo[extra1,extra2]` with constraint `>=1.0,<2.0`. -/
theorem c6_extras_suffix :
    parse_requirement_line "foo[extra1,extra2]>=1.0,<2.0" =
      ("foo[extra1,extra2]", some ">=1.0,<2.0") := by decide

/-! ## Claim C7 -/

/-- C7: a line that does not match the parser's pattern (that is, one
that does not begin with an identifier character, so the anchored
regex cannot match) is returned whole as the package with an absent
constraint; the parser is total, so conversion never aborts. -/
theorem c7_unparseable_line (line : String)
    (h : line.data.takeWhile identChar = []) :
    parse_requirement_line line = (line, none) := by
  simp [parse_requirement_line, h]

/-- Witness for C7 at the concrete line `>=1.0`. -/
theorem c7_unparseable_line_witness :
    (">=1.0" : String).data.takeWhile identChar = [] ∧
    parse_requirement_line ">=1.0" = (">=1.0", none) :=
  ⟨by decide, c7_unparseable_line ">=1.0" (by decide)⟩

/-! ## Claim C9 -/

set_option maxRecDepth 100000 in
/-- C9 counterexample: for the mapping binding `a` to the present but
empty constraint, the generator renders `a = "*"` (Python's `if ver:`
is false for the empty string), not the claimed `a = ""`. -/
theorem c9_counterexample_empty_constraint :
    generate_pyproject_toml [("a", some "")] =
      genHeader ++ "a = \"*\"\n" ++ genFooter ∧
    generate_pyproject_toml [("a", some "")] ≠
      genHeader ++ "a = \"\"\n" ++ genFooter := by
  refine ⟨by decide, by decide⟩

/-- C9 (amended): the output is exactly the fixed header block, one
rendered line per dependency in mapping order, and the fixed
build-system footer, where a dependency renders as
`<package> = "<constraint>"` when the constraint is present and
non-empty and as `<package> = "*"` when it is absent or empty; the
rendering is verbatim string concatenation, so no quote escaping is
performed. -/
theorem c9_generator_template :
    (∀ deps, generate_pyproject_toml deps =
        genHeader ++ concatStrs (deps.map depLine) ++ genFooter) ∧
    (∀ p v, v ≠ "" → depLine (p, some v) = p ++ " = \"" ++ v ++ "\"\n") ∧
    (∀ p, depLine (p, none) = p ++ " = \"*\"\n") ∧
    (∀ p, depLine (p, some "") = p ++ " = \"*\"\n") := by
  refine ⟨generate_decomp, fun p v hv => ?_, fun p => rfl, fun p => ?_⟩
  · simp [depLine, hv]
  · simp [depLine]

/-- Witness for C9's amended statement: a package name containing a
quote character is embedded verbatim, unescaped. -/
theorem c9_generator_template_witness :
    depLine ("a\"b", some "==1") = "a\"b = \"==1\"\n" := by
  have h := c9_generator_template.2.1 "a\"b" "==1" (by decide)
  rw [h]
  decide

/-! ## Claim C10 -/

/-- C10: every generated manifest, the one for the empty mapping
included, contains the fixed line `python = "^3.8"` in the
dependencies section, placed before every dependency derived from the
input. -/
theorem c10_implicit_python_dep :
    (∀ deps, generate_pyproject_toml deps =
        genHeaderPre ++ pythonDepLine ++ concatStrs (deps.map depLine) ++ genFooter) ∧
    generate_pyproject_toml [] = genHeaderPre ++ pythonDepLine ++ "" ++ genFooter := by
  have key : ∀ deps, generate_pyproject_toml deps =
      genHeaderPre ++ pythonDepLine ++ concatStrs (deps.map depLine) ++ genFooter := by
    intro deps
    rw [generate_decomp, genHeader_split]
  exact ⟨key, by simpa [concatStrs] using key []⟩

end ConvertReq
